import Mathlib

/-!
Shallow embedding of the `chunkenizer` document-ingestion service
(Python sources under `app/`), together with proofs about the claims of
its specification.

Conventions of the embedding:
* Python `bytes` become `List Nat` (each entry a byte value 0..255).
* Python `str` becomes `String`; `str.decode("utf-8")` is modelled by a
  faithful UTF-8 decoder (`decodeUtf8Strict` for the raising form,
  `decodeUtf8Ignore` for `errors="ignore"`).
* The tiktoken tokenizer, the SHA-256 function, the embedding model and
  the JSON parser are external libraries; they are passed in as opaque
  function parameters, since no verified claim depends on their innards.
* Unbounded `while` loops are given explicit fuel; `none` marks the
  diverging configurations that the fuel cannot reach.
* The SQLite table and the Qdrant collection become two lists inside a
  `Sys` state record; route handlers become state-transforming functions
  that also emit a trace of store events.
-/

namespace Chunkenizer

/-! ## UTF-8 decoding (model of Python `bytes.decode("utf-8", ...)`) -/

/-- Decode one UTF-8 encoded character from the front of a byte list.
Returns `(codepoint, bytes consumed)`, or `none` if the bytes do not
start with a well-formed UTF-8 sequence (overlong forms, surrogates and
out-of-range lead bytes all rejected, as CPython does). -/
def utf8DecodeChar : List Nat → Option (Nat × Nat)
  | [] => none
  | b :: rest =>
    if b < 0x80 then
      some (b, 1)
    else if 0xC2 ≤ b ∧ b ≤ 0xDF then
      match rest with
      | c1 :: _ =>
        if 0x80 ≤ c1 ∧ c1 ≤ 0xBF then
          some ((b - 0xC0) * 0x40 + (c1 - 0x80), 2)
        else none
      | [] => none
    else if 0xE0 ≤ b ∧ b ≤ 0xEF then
      let lo1 := if b = 0xE0 then 0xA0 else 0x80
      let hi1 := if b = 0xED then 0x9F else 0xBF
      match rest with
      | c1 :: c2 :: _ =>
        if lo1 ≤ c1 ∧ c1 ≤ hi1 ∧ 0x80 ≤ c2 ∧ c2 ≤ 0xBF then
          some ((b - 0xE0) * 0x1000 + (c1 - 0x80) * 0x40 + (c2 - 0x80), 3)
        else none
      | _ => none
    else if 0xF0 ≤ b ∧ b ≤ 0xF4 then
      let lo1 := if b = 0xF0 then 0x90 else 0x80
      let hi1 := if b = 0xF4 then 0x8F else 0xBF
      match rest with
      | c1 :: c2 :: c3 :: _ =>
        if lo1 ≤ c1 ∧ c1 ≤ hi1 ∧ 0x80 ≤ c2 ∧ c2 ≤ 0xBF ∧ 0x80 ≤ c3 ∧ c3 ≤ 0xBF then
          some ((b - 0xF0) * 0x40000 + (c1 - 0x80) * 0x1000 + (c2 - 0x80) * 0x40 + (c3 - 0x80), 4)
        else none
      | _ => none
    else none

/-- Length of the maximal subpart of an ill-formed sequence at the front
of the byte list (the number of bytes CPython's `errors="ignore"`
handler skips when `utf8DecodeChar` fails here).  Always at least 1. -/
def utf8InvalidSpan : List Nat → Nat
  | [] => 1
  | b :: rest =>
    if 0xE0 ≤ b ∧ b ≤ 0xEF then
      let lo1 := if b = 0xE0 then 0xA0 else 0x80
      let hi1 := if b = 0xED then 0x9F else 0xBF
      match rest with
      | c1 :: _ => if lo1 ≤ c1 ∧ c1 ≤ hi1 then 2 else 1
      | [] => 1
    else if 0xF0 ≤ b ∧ b ≤ 0xF4 then
      let lo1 := if b = 0xF0 then 0x90 else 0x80
      let hi1 := if b = 0xF4 then 0x8F else 0xBF
      match rest with
      | c1 :: c2 :: _ =>
        if (lo1 ≤ c1 ∧ c1 ≤ hi1) ∧ (0x80 ≤ c2 ∧ c2 ≤ 0xBF) then 3
        else if lo1 ≤ c1 ∧ c1 ≤ hi1 then 2
        else 1
      | [c1] => if lo1 ≤ c1 ∧ c1 ≤ hi1 then 2 else 1
      | [] => 1
    else 1

/-- Worker for strict decoding; the fuel starts at the byte count, which
is an upper bound on the number of decoded characters. -/
def decodeStrictAux : Nat → List Nat → Option (List Char)
  | _, [] => some []
  | 0, _ :: _ => none
  | fuel + 1, b :: rest =>
    match utf8DecodeChar (b :: rest) with
    | none => none
    | some (cp, k) =>
      (decodeStrictAux fuel ((b :: rest).drop k)).map (fun tl => Char.ofNat cp :: tl)

/-- Model of Python `bytes.decode("utf-8")`: `none` models the raised
`UnicodeDecodeError`. -/
def decodeUtf8Strict (bs : List Nat) : Option String :=
  (decodeStrictAux bs.length bs).map (fun chars => String.mk chars)

/-- Worker for `errors="ignore"` decoding: ill-formed maximal subparts
are skipped and decoding resumes. -/
def decodeIgnoreAux : Nat → List Nat → List Char
  | _, [] => []
  | 0, _ :: _ => []
  | fuel + 1, b :: rest =>
    match utf8DecodeChar (b :: rest) with
    | some (cp, k) => Char.ofNat cp :: decodeIgnoreAux fuel ((b :: rest).drop k)
    | none => decodeIgnoreAux fuel ((b :: rest).drop (utf8InvalidSpan (b :: rest)))

/-- Model of Python `bytes.decode("utf-8", errors="ignore")`: a total
function, it never raises. -/
def decodeUtf8Ignore (bs : List Nat) : String :=
  String.mk (decodeIgnoreAux bs.length bs)

/-! ## Text extractor (`DocumentProcessor.extract_text` and
`DocumentProcessor._flatten_json` in `app/ingest/processor.py`) -/

/-- A parsed JSON value as `json.loads` hands it to `_flatten_json`.
Scalar leaves (strings, numbers, booleans, null) are represented by the
text Python's f-string interpolation would print for them, since the
flattener only ever interpolates them into `"key: value"` lines. -/
inductive PyJson where
  | dict : List (String × PyJson) → PyJson
  | arr : List PyJson → PyJson
  | leaf : String → PyJson

mutual

/-- The `lines` list built by `_flatten_json` before the final join.
The Python code accumulates a list of lines, splitting the newline-join
of each recursive result back into lines; composing the join
(`String.intercalate "\n"`, see `flattenJson`) with `splitOn "\n"`
reproduces that exactly. -/
def flattenLines : PyJson → String → List String
  | PyJson.dict kvs, pfx =>
    flattenDict kvs pfx
  | PyJson.arr items, pfx =>
    flattenArr items 0 pfx
  | PyJson.leaf v, pfx =>
    [pfx ++ ": " ++ v]

/-- The dict branch: one `key: value` line per scalar entry, recursive
flatten (re-split into lines) for nested dicts/lists. -/
def flattenDict : List (String × PyJson) → String → List String
  | [], _ => []
  | (key, value) :: kvs, pfx =>
    let newKey := if pfx = "" then key else pfx ++ "." ++ key
    let here :=
      match value with
      | PyJson.dict _ =>
        (String.intercalate ("\n") (flattenLines value newKey)).splitOn ("\n")
      | PyJson.arr _ =>
        (String.intercalate ("\n") (flattenLines value newKey)).splitOn ("\n")
      | PyJson.leaf v => [newKey ++ ": " ++ v]
    here ++ flattenDict kvs pfx

/-- The list branch: `path[idx]` keys, recursing like the dict branch. -/
def flattenArr : List PyJson → Nat → String → List String
  | [], _, _ => []
  | item :: items, idx, pfx =>
    let newKey := if pfx = "" then "[" ++ toString idx ++ "]"
      else pfx ++ "[" ++ toString idx ++ "]"
    let here :=
      match item with
      | PyJson.dict _ =>
        (String.intercalate ("\n") (flattenLines item newKey)).splitOn ("\n")
      | PyJson.arr _ =>
        (String.intercalate ("\n") (flattenLines item newKey)).splitOn ("\n")
      | PyJson.leaf v => [newKey ++ ": " ++ v]
    here ++ flattenArr items (idx + 1) pfx

end

/-- `DocumentProcessor._flatten_json`: flatten a JSON object to a
line-oriented text representation (the final `"\n".join(lines)`). -/
def flattenJson (obj : PyJson) (pfx : String) : String :=
  String.intercalate ("\n") (flattenLines obj pfx)

/-- The exception kinds `extract_text` can leak. -/
inductive ExtractError where
  | unicodeDecodeError
deriving DecidableEq

/-- `DocumentProcessor.extract_text` from `app/ingest/processor.py`.

`jp` models `json.loads`: `some v` is a successful parse, `none` is a
raised `json.JSONDecodeError`.  Note the source's `try` block around the
JSON branch catches only `json.JSONDecodeError`; the strict
`content.decode("utf-8")` inside it can still raise
`UnicodeDecodeError`, which escapes, exactly as modelled here. -/
def extract_text (jp : String → Option PyJson) (content : List Nat)
    (content_type : String) (filename : String) : Except ExtractError String :=
  if content_type = "text/plain" ∨ content_type = "text/markdown" then
    match decodeUtf8Strict content with
    | some s => Except.ok s
    | none => Except.error ExtractError.unicodeDecodeError
  else if content_type = "application/json" then
    match decodeUtf8Strict content with
    | none => Except.error ExtractError.unicodeDecodeError
    | some s =>
      match jp s with
      | some data => Except.ok (flattenJson data "")
      | none => Except.ok (decodeUtf8Ignore content)
  else
    Except.ok (decodeUtf8Ignore content)

/-! ## Chunker (`TokenChunker` in `app/ingest/chunker.py`) -/

/-- The tiktoken `cl100k_base` encoding, treated as an opaque pair of
functions (the chunker calls only `encode` and `decode`). -/
structure Encoding where
  encode : String → List Nat
  decode : List Nat → String

/-- One chunk dict as `chunk_text` builds it:
`{"text": ..., "token_count": ..., "chunk_index": ...}`. -/
structure Chunk where
  text : String
  token_count : Nat
  chunk_index : Nat
deriving DecidableEq

/-- Python's `not text.strip()`: true iff every character is whitespace
(so stripping leaves the empty, falsy string). -/
def pyStripIsEmpty (s : String) : Bool :=
  s.data.all (fun c => c.isWhitespace)

/-- The `while start_idx < len(tokens)` loop of `TokenChunker.chunk_text`,
with explicit fuel (one unit per iteration).  `none` models the loop
failing to terminate within the fuel; `chunk_text` passes enough fuel
for every configuration with `chunk_overlap < chunk_size`. -/
def chunkLoop (dec : List Nat → String) (tokens : List Nat) (cs ov : Nat) :
    Nat → Nat → Nat → Option (List Chunk)
  | 0, _, _ => none
  | fuel + 1, start_idx, chunk_index =>
    if start_idx < tokens.length then
      let end_idx := min (start_idx + cs) tokens.length
      let chunk_tokens := (tokens.drop start_idx).take (end_idx - start_idx)
      let c : Chunk := ⟨dec chunk_tokens, chunk_tokens.length, chunk_index⟩
      if tokens.length ≤ end_idx then
        some [c]
      else
        (chunkLoop dec tokens cs ov fuel (end_idx - ov) (chunk_index + 1)).map
          (fun rest => c :: rest)
    else
      some []

/-- `TokenChunker.chunk_text`: split text into token windows with
overlap.  `cs`/`ov` are the `chunk_size`/`chunk_overlap` settings. -/
def chunk_text (enc : Encoding) (cs ov : Nat) (text : String) : Option (List Chunk) :=
  if pyStripIsEmpty text then some []
  else
    let tokens := enc.encode text
    if tokens.length ≤ cs then some [⟨text, tokens.length, 0⟩]
    else chunkLoop enc.decode tokens cs ov (tokens.length + 1) 0 0

/-- `TokenChunker.count_tokens`. -/
def count_tokens (enc : Encoding) (text : String) : Nat :=
  (enc.encode text).length

/-- Companion of `chunkLoop` recording only the `(start_idx, end_idx)`
token-window bounds each iteration computes. -/
def chunkWindowsLoop (len cs ov : Nat) : Nat → Nat → Option (List (Nat × Nat))
  | 0, _ => none
  | fuel + 1, start_idx =>
    if start_idx < len then
      let end_idx := min (start_idx + cs) len
      if len ≤ end_idx then
        some [(start_idx, end_idx)]
      else
        (chunkWindowsLoop len cs ov fuel (end_idx - ov)).map
          (fun rest => (start_idx, end_idx) :: rest)
    else
      some []

/-- The token windows underlying `chunk_text`'s result. -/
def chunk_windows (enc : Encoding) (cs ov : Nat) (text : String) :
    Option (List (Nat × Nat)) :=
  if pyStripIsEmpty text then some []
  else
    let tokens := enc.encode text
    if tokens.length ≤ cs then some [(0, tokens.length)]
    else chunkWindowsLoop tokens.length cs ov (tokens.length + 1) 0

/-- The chunk one loop iteration builds from its token window. -/
def chunkOfWindow (dec : List Nat → String) (tokens : List Nat) (idx : Nat)
    (w : Nat × Nat) : Chunk :=
  let ts := (tokens.drop w.1).take (w.2 - w.1)
  ⟨dec ts, ts.length, idx⟩

/-- The chunk list corresponding to a window list, indices starting at
`idx`. -/
def windowChunks (dec : List Nat → String) (tokens : List Nat) :
    Nat → List (Nat × Nat) → List Chunk
  | _, [] => []
  | idx, w :: ws => chunkOfWindow dec tokens idx w :: windowChunks dec tokens (idx + 1) ws

/-- A concrete stand-in tokenizer (one token per character) used to run
the chunker on closed inputs in witnesses; the verified theorems hold
for every `Encoding`. -/
def charEncoding : Encoding where
  encode := fun s => s.data.map Char.toNat
  decode := fun l => String.mk (l.map Char.ofNat)

/-- `settings.chunk_size_tokens` (`app/config.py`). -/
def chunk_size_tokens : Nat := 500

/-- `settings.chunk_overlap_tokens` (`app/config.py`). -/
def chunk_overlap_tokens : Nat := 50

/-! ## Data model and coordinator state
(`app/db/models.py`, `app/vectorstore/qdrant_client.py`,
`app/api/routes.py`)

The SQLite `documents` table and the Qdrant collection become two lists
inside one state record.  Embedding vectors, timestamps and the
free-form payload strings that no verified claim inspects are carried
implicitly (they never influence the control flow being modelled). -/

/-- One row of the `documents` table (`Document` in `app/db/models.py`).
Opaque UUID identifiers become `Nat` drawn from a freshness counter. -/
structure DocRow where
  id : Nat
  name : String
  content_type : String
  sha256 : String
  metadata_json : Option String
  chunk_count : Nat
  total_tokens : Nat
  status : String
deriving DecidableEq

/-- One Qdrant point: its id plus the payload fields the route handlers
read (`doc_id`, `chunk_index`, `token_count`, `chunk_text`). -/
structure Point where
  pid : Nat
  doc_id : Nat
  chunk_index : Nat
  token_count : Nat
  chunk_text : String
deriving DecidableEq

/-- The two stores plus a supply of fresh opaque identifiers. -/
structure Sys where
  docs : List DocRow
  points : List Point
  nextId : Nat
deriving DecidableEq

/-- Store operations a request performs, in order (the claims about
"X happens before Y" and "nothing was written" are read off this
trace). -/
inductive Event where
  | deletePointsByDoc (doc_id : Nat)
  | deleteDocRow (doc_id : Nat)
  | createDocRow (doc_id : Nat)
  | addPoints (doc_id : Nat) (n : Nat)
deriving DecidableEq

/-- Failures `DocumentProcessor.process_document` can raise. -/
inductive ProcError where
  | unicodeDecodeError
  | noContent
  | chunkerDiverges
deriving DecidableEq

/-- Result dict of `DocumentProcessor.process_document` (embeddings are
produced alongside, one per chunk, by the black-box model; they carry no
information any claim touches). -/
structure ProcResult where
  text : String
  chunks : List Chunk
  sha256 : String
  total_tokens : Nat
deriving DecidableEq

/-- `DocumentProcessor.process_document`: extract, hash, chunk; raise on
zero chunks.  `sha` models `hashlib.sha256(...).hexdigest()`, `jp`
models `json.loads`. -/
def process_document (sha : List Nat → String) (enc : Encoding)
    (jp : String → Option PyJson) (cs ov : Nat) (content : List Nat)
    (content_type : String) (filename : String) : Except ProcError ProcResult :=
  match extract_text jp content content_type filename with
  | Except.error _ => Except.error ProcError.unicodeDecodeError
  | Except.ok text =>
    match chunk_text enc cs ov text with
    | none => Except.error ProcError.chunkerDiverges
    | some chunks =>
      if chunks.isEmpty then Except.error ProcError.noContent
      else
        Except.ok ⟨text, chunks, sha content, (chunks.map (fun c => c.token_count)).sum⟩

/-- The JSON body `upload_document` answers with (`message` plus the
Document summary fields each branch returns). -/
structure UploadResp where
  message : String
  document_id : Nat
  chunk_count : Nat
  total_tokens : Nat
deriving DecidableEq

/-- The ingestion tail of `upload_document` (run when no dedup
short-circuit applies): process, retire the prior document if
reindexing, create the new row, insert the new points. -/
def uploadIngest (sha : List Nat → String) (enc : Encoding)
    (jp : String → Option PyJson) (cs ov : Nat) (st : Sys) (content : List Nat)
    (ct : String) (filename : String) (metadata_json : Option String)
    (existing : Option DocRow) : Sys × List Event × Except ProcError UploadResp :=
  match process_document sha enc jp cs ov content ct filename with
  | Except.error e => (st, [], Except.error e)
  | Except.ok res =>
    let st1 : Sys :=
      match existing with
      | some d =>
        ⟨st.docs.filter (fun r => r.id ≠ d.id),
         st.points.filter (fun p => p.doc_id ≠ d.id), st.nextId⟩
      | none => st
    let ev1 : List Event :=
      match existing with
      | some d => [Event.deletePointsByDoc d.id, Event.deleteDocRow d.id]
      | none => []
    let newId := st1.nextId
    let row : DocRow :=
      ⟨newId, filename, ct, sha content, metadata_json,
       res.chunks.length, res.total_tokens, "ingested"⟩
    let newPoints := res.chunks.enum.map
      (fun ic => (⟨newId + 1 + ic.1, newId, ic.2.chunk_index, ic.2.token_count, ic.2.text⟩ : Point))
    let st2 : Sys :=
      ⟨st1.docs ++ [row], st1.points ++ newPoints, newId + 1 + res.chunks.length⟩
    (st2, ev1 ++ [Event.createDocRow newId, Event.addPoints newId res.chunks.length],
     Except.ok ⟨"Document ingested successfully", newId, res.chunks.length, res.total_tokens⟩)

/-- `upload_document` in `app/api/routes.py`.  Returns the state after
the request, the trace of store events, and either the response or the
exception turned into a 500.  Every error path leaves the state
untouched and the trace empty, because `process_document` runs before
any store write. -/
def upload (sha : List Nat → String) (enc : Encoding)
    (jp : String → Option PyJson) (cs ov : Nat) (st : Sys) (content : List Nat)
    (content_type : Option String) (filename : String)
    (metadata_json : Option String) (force_reindex : Bool) :
    Sys × List Event × Except ProcError UploadResp :=
  let ct := content_type.getD ("text/plain")
  let sha256v := sha content
  let existing := st.docs.find? (fun d => d.sha256 = sha256v)
  match existing with
  | some d =>
    if force_reindex then
      uploadIngest sha enc jp cs ov st content ct filename metadata_json (some d)
    else
      (st, [], Except.ok ⟨"Document already exists", d.id, d.chunk_count, d.total_tokens⟩)
  | none => uploadIngest sha enc jp cs ov st content ct filename metadata_json none

/-- One upload request (the form fields of `POST /documents`). -/
structure UploadReq where
  content : List Nat
  content_type : Option String
  filename : String
  metadata_json : Option String
  force_reindex : Bool

/-- Run a sequence of upload requests, threading the state. -/
def runUploads (sha : List Nat → String) (enc : Encoding)
    (jp : String → Option PyJson) (cs ov : Nat) : Sys → List UploadReq → Sys
  | st, [] => st
  | st, r :: rs =>
    runUploads sha enc jp cs ov
      (upload sha enc jp cs ov st r.content r.content_type r.filename
        r.metadata_json r.force_reindex).1 rs

/-- "At most one live Document row per sha256": any two rows of the
table differ in fingerprint. -/
def UniqueSha (st : Sys) : Prop :=
  st.docs.Pairwise (fun a b => a.sha256 ≠ b.sha256)

instance (st : Sys) : Decidable (UniqueSha st) :=
  inferInstanceAs (Decidable (List.Pairwise _ _))

/-- Failures of `DELETE /documents/{doc_id}`. -/
inductive DelError where
  | notFound
  | dbError
deriving DecidableEq

/-- The JSON body `delete_document` answers with. -/
structure DelResp where
  message : String
  document_id : Nat
  warning : Option String
deriving DecidableEq

/-- `delete_document` in `app/api/routes.py`.  `qdrantFails` injects a
Vector Store failure into step 2 (the exception the source catches and
logs); `dbFails` injects a failure of the SQLite delete (turned into a
500 after rollback). -/
def delete_document (st : Sys) (did : Nat) (qdrantFails dbFails : Bool) :
    Sys × Except DelError DelResp :=
  match st.docs.find? (fun d => d.id = did) with
  | none => (st, Except.error DelError.notFound)
  | some _ =>
    let pts' := if qdrantFails then st.points
      else st.points.filter (fun p => p.doc_id ≠ did)
    let qdrant_deleted := ¬ qdrantFails
    if dbFails then
      (⟨st.docs, pts', st.nextId⟩, Except.error DelError.dbError)
    else
      let st' : Sys := ⟨st.docs.filter (fun d => d.id ≠ did), pts', st.nextId⟩
      if qdrant_deleted then
        (st', Except.ok ⟨"Document and all chunks deleted successfully", did, none⟩)
      else
        (st', Except.ok
          ⟨"Document deleted from database, but some chunks may remain in Qdrant",
           did, some ("Qdrant cleanup failed")⟩)

/-- Order-preserving first-occurrence deduplication: the key order of
the `doc_points_map` dict `delete_qdrant_points` builds by insertion. -/
def dedupKeepFirst : List Nat → List Nat
  | [] => []
  | a :: l => a :: (dedupKeepFirst l).filter (fun b => b ≠ a)

/-- The doc ids owning the points that `delete_qdrant_points` managed to
retrieve before deletion ("affected Documents"). -/
def affectedDocIds (st : Sys) (point_ids : List Nat) : List Nat :=
  dedupKeepFirst ((st.points.filter (fun p => p.pid ∈ point_ids)).map (fun p => p.doc_id))

/-- The recount `delete_qdrant_points` applies to one affected row: one
scroll page (`limit=10000`) of the points remaining for this doc id,
`chunk_count` overwritten with their number and `total_tokens` with
their token sum. -/
def recountRow (ptsAfter : List Point) (a : Nat) (d : DocRow) : DocRow :=
  let remaining := (ptsAfter.filter (fun p => p.doc_id = a)).take 10000
  { d with chunk_count := remaining.length,
           total_tokens := (remaining.map (fun p => p.token_count)).sum }

/-- The metadata-recount loop at the end of `delete_qdrant_points`: for
each affected doc id found in SQLite, recompute its row from the
post-delete Vector Store state. -/
def updateDocsLoop (ptsAfter : List Point) : List Nat → List DocRow → List DocRow
  | [], docs => docs
  | a :: rest, docs =>
    match docs.find? (fun d => d.id = a) with
    | none => updateDocsLoop ptsAfter rest docs
    | some _ =>
      updateDocsLoop ptsAfter rest
        (docs.map (fun d => if d.id = a then recountRow ptsAfter a d else d))

/-- Failures of `DELETE /qdrant/points`. -/
inductive PtsError where
  | badRequest
  | deleteFailed
deriving DecidableEq

/-- The JSON body `delete_qdrant_points` answers with. -/
structure PtsResp where
  message : String
  deleted_count : Nat
deriving DecidableEq

/-- `delete_qdrant_points` in `app/api/routes.py`.  `retrieveFails`
injects a failure of the pre-delete payload retrieval (caught: the
operation proceeds with no retrieved points); `deleteFails` injects a
failure of the point deletion (aborts with a 500 before any metadata
update). -/
def delete_qdrant_points (st : Sys) (point_ids : List Nat)
    (retrieveFails deleteFails : Bool) : Sys × Except PtsError PtsResp :=
  if point_ids.isEmpty then (st, Except.error PtsError.badRequest)
  else
    let retrieved := if retrieveFails then []
      else st.points.filter (fun p => p.pid ∈ point_ids)
    let affected := dedupKeepFirst (retrieved.map (fun p => p.doc_id))
    if deleteFails then (st, Except.error PtsError.deleteFailed)
    else
      let pts' := st.points.filter (fun p => p.pid ∉ point_ids)
      (⟨updateDocsLoop pts' affected st.docs, pts', st.nextId⟩,
       Except.ok ⟨"Points deleted successfully", point_ids.length⟩)

/-- A model SHA-256 used to run the coordinator on closed inputs in
witnesses (the real hash is an external library call; no claim depends
on its value beyond functional determinism, which any function has). -/
def shaModel (bs : List Nat) : String :=
  String.intercalate ("-") (bs.map (fun b => toString b))

/-- A model `json.loads` that always reports a parse failure, for
witnesses. -/
def noJson (_ : String) : Option PyJson := none

/-! ## Concrete inputs used by witnesses and counterexamples -/

/-- The chunks of `"abcdefgh"` under `charEncoding` with size 3 and
overlap 1. -/
def chunksAbc : List Chunk :=
  [⟨("abc"), 3, 0⟩, ⟨("cde"), 3, 1⟩, ⟨("efg"), 3, 2⟩, ⟨("gh"), 2, 3⟩]

/-- The token windows of `"abcdefgh"` under `charEncoding` with size 3
and overlap 1. -/
def windowsAbc : List (Nat × Nat) :=
  [(0, 3), (2, 5), (4, 7), (6, 8)]

/-- The chunks of `"abcdef"` under `charEncoding` with size 4 and
overlap 2. -/
def chunksDef : List Chunk :=
  [⟨("abcd"), 4, 0⟩, ⟨("cdef"), 4, 1⟩]

/-- A document whose points exceed the single recount scroll page. -/
def bigDoc : DocRow :=
  ⟨0, ("big"), ("text/plain"), ("h0"), none, 10002, 10002, ("ingested")⟩

/-- Points 1..10001 of `bigDoc`, one token each. -/
def bigTail : List Point :=
  (List.range 10001).map (fun i => ⟨i + 1, 0, i + 1, 1, ("")⟩)

/-- 10002 points for `bigDoc`: point id 0 (to be deleted) plus
`bigTail`. -/
def bigPoints : List Point :=
  ⟨0, 0, 0, 1, ("")⟩ :: bigTail

/-- A state where deleting point 0 leaves 10001 points for `bigDoc`. -/
def bigState : Sys := ⟨[bigDoc], bigPoints, 20000⟩

/-! ## Chunker lemmas -/

/-- The chain of token windows the sliding-window loop walks through:
starting at `s`, each window ends at `min (start + cs) len`, the loop
stops exactly when a window's end reaches `len`, and otherwise the next
window starts `ov` tokens before this one's end. -/
inductive WChain (len cs ov : Nat) : Nat → List (Nat × Nat) → Prop
  | last : ∀ s, s < len → len ≤ min (s + cs) len →
      WChain len cs ov s [(s, min (s + cs) len)]
  | step : ∀ s rest, s < len → min (s + cs) len < len →
      WChain len cs ov (min (s + cs) len - ov) rest →
      WChain len cs ov s ((s, min (s + cs) len) :: rest)

theorem chunkWindowsLoop_sound {len cs ov : Nat} :
    ∀ {fuel start ws}, start < len →
      chunkWindowsLoop len cs ov fuel start = some ws → WChain len cs ov start ws := by
  intro fuel
  induction fuel with
  | zero => intro start ws _ h; simp [chunkWindowsLoop] at h
  | succ fuel ih =>
    intro start ws hs h
    rw [chunkWindowsLoop, if_pos hs] at h
    by_cases he : len ≤ min (start + cs) len
    · rw [if_pos he] at h
      cases h
      exact WChain.last start hs he
    · rw [if_neg he] at h
      rcases Option.map_eq_some'.mp h with ⟨rest, hrest, hws⟩
      subst hws
      have hlt : min (start + cs) len < len := Nat.lt_of_not_le he
      exact WChain.step start rest hs hlt (ih (by omega) hrest)

theorem chunkWindowsLoop_total {len cs ov : Nat} (hov : ov < cs) :
    ∀ fuel start, start < len → len - start ≤ fuel →
      (chunkWindowsLoop len cs ov fuel start).isSome = true := by
  intro fuel
  induction fuel with
  | zero => intro start hs hf; omega
  | succ fuel ih =>
    intro start hs hf
    rw [chunkWindowsLoop, if_pos hs]
    by_cases he : len ≤ min (start + cs) len
    · rw [if_pos he]; rfl
    · rw [if_neg he]
      have hmin : min (start + cs) len = start + cs := by omega
      have h2 := ih (start + cs - ov) (by omega) (by omega)
      rw [hmin]
      cases hc : chunkWindowsLoop len cs ov fuel (start + cs - ov) with
      | none => rw [hc] at h2; simp at h2
      | some rest => simp

theorem chunkLoop_eq_windows (dec : List Nat → String) (tokens : List Nat)
    (cs ov : Nat) : ∀ fuel start idx,
    chunkLoop dec tokens cs ov fuel start idx =
      (chunkWindowsLoop tokens.length cs ov fuel start).map
        (windowChunks dec tokens idx) := by
  intro fuel
  induction fuel with
  | zero => intro start idx; rfl
  | succ fuel ih =>
    intro start idx
    rw [chunkLoop, chunkWindowsLoop]
    by_cases hs : start < tokens.length
    · rw [if_pos hs, if_pos hs]
      by_cases he : tokens.length ≤ min (start + cs) tokens.length
      · rw [if_pos he, if_pos he]
        rfl
      · rw [if_neg he, if_neg he, ih]
        cases chunkWindowsLoop tokens.length cs ov fuel (min (start + cs) tokens.length - ov) with
        | none => rfl
        | some rest => rfl
    · rw [if_neg hs, if_neg hs]; rfl

theorem WChain.ne_nil {len cs ov s : Nat} {ws : List (Nat × Nat)}
    (h : WChain len cs ov s ws) : ws ≠ [] := by
  cases h <;> simp

theorem WChain.head {len cs ov s : Nat} {ws : List (Nat × Nat)}
    (h : WChain len cs ov s ws) :
    ∃ rest, ws = (s, min (s + cs) len) :: rest := by
  cases h with
  | last s h1 h2 => exact ⟨[], rfl⟩
  | step s rest h1 h2 h3 => exact ⟨rest, rfl⟩

theorem WChain.mem_spec {len cs ov s : Nat} {ws : List (Nat × Nat)}
    (h : WChain len cs ov s ws) :
    ∀ p ∈ ws, p.2 = min (p.1 + cs) len ∧ p.1 < len := by
  induction h with
  | last s h1 h2 => intro p hp; simp at hp; subst hp; exact ⟨rfl, h1⟩
  | step s rest h1 h2 h3 ih =>
    intro p hp
    rcases List.mem_cons.mp hp with hp | hp
    · subst hp; exact ⟨rfl, h1⟩
    · exact ih p hp

theorem WChain.getLast_end {len cs ov s : Nat} {ws : List (Nat × Nat)}
    (h : WChain len cs ov s ws) :
    ∃ p, ws.getLast? = some p ∧ p.2 = len := by
  induction h with
  | last s h1 h2 =>
    exact ⟨(s, min (s + cs) len), rfl, by omega⟩
  | step s rest h1 h2 h3 ih =>
    rcases ih with ⟨p, hp, hp2⟩
    rcases List.exists_cons_of_ne_nil h3.ne_nil with ⟨a, l, hal⟩
    subst hal
    exact ⟨p, by rw [List.getLast?_cons_cons]; exact hp, hp2⟩

theorem WChain.overlap_chain {len cs ov s : Nat} {ws : List (Nat × Nat)}
    (h : WChain len cs ov s ws) :
    List.Chain' (fun a b => b.1 = a.2 - ov) ws := by
  induction h with
  | last s h1 h2 => simp
  | step s rest h1 h2 h3 ih =>
    rw [List.chain'_cons']
    refine ⟨?_, ih⟩
    intro b hb
    rcases h3.head with ⟨rest', hrest'⟩
    rw [hrest'] at hb
    simp at hb
    subst hb
    simp

theorem WChain.advance_chain {len cs ov s : Nat} {ws : List (Nat × Nat)}
    (hov : ov < cs) (h : WChain len cs ov s ws) :
    List.Chain' (fun a b => a.1 < b.1) ws := by
  induction h with
  | last s h1 h2 => simp
  | step s rest h1 h2 h3 ih =>
    rw [List.chain'_cons']
    refine ⟨?_, ih⟩
    intro b hb
    rcases h3.head with ⟨rest', hrest'⟩
    rw [hrest'] at hb
    simp at hb
    subst hb
    simp
    omega

theorem WChain.dropLast_spec {len cs ov s : Nat} {ws : List (Nat × Nat)}
    (h : WChain len cs ov s ws) :
    ∀ p ∈ ws.dropLast, p.2 = p.1 + cs ∧ p.2 < len := by
  induction h with
  | last s h1 h2 => intro p hp; simp at hp
  | step s rest h1 h2 h3 ih =>
    intro p hp
    rcases List.exists_cons_of_ne_nil h3.ne_nil with ⟨a, l, hal⟩
    subst hal
    rw [List.dropLast_cons₂] at hp
    rcases List.mem_cons.mp hp with hp | hp
    · subst hp
      constructor
      · omega
      · exact h2
    · exact ih p hp

theorem windowChunks_length (dec : List Nat → String) (tokens : List Nat) :
    ∀ idx ws, (windowChunks dec tokens idx ws).length = ws.length := by
  intro idx ws
  induction ws generalizing idx with
  | nil => rfl
  | cons w ws ih => simp [windowChunks, ih]

theorem windowChunks_map_index (dec : List Nat → String) (tokens : List Nat) :
    ∀ idx ws, (windowChunks dec tokens idx ws).map (fun c => c.chunk_index) =
      (List.range ws.length).map (fun k => idx + k) := by
  intro idx ws
  induction ws generalizing idx with
  | nil => rfl
  | cons w ws ih =>
    rw [windowChunks, List.map_cons, ih, List.length_cons, List.range_succ_eq_map]
    simp only [chunkOfWindow, List.map_cons, List.map_map, Function.comp]
    refine congrArg₂ _ (by omega) (List.map_congr_left ?_)
    intro k _
    simp
    omega

theorem windowChunks_mem_token_count (dec : List Nat → String) (tokens : List Nat) :
    ∀ idx ws c, c ∈ windowChunks dec tokens idx ws →
      ∃ w ∈ ws, c.token_count = ((tokens.drop w.1).take (w.2 - w.1)).length := by
  intro idx ws
  induction ws generalizing idx with
  | nil => intro c hc; simp [windowChunks] at hc
  | cons w ws ih =>
    intro c hc
    rw [windowChunks] at hc
    rcases List.mem_cons.mp hc with hc | hc
    · exact ⟨w, List.mem_cons_self w ws, by rw [hc]; rfl⟩
    · rcases ih (idx + 1) c hc with ⟨w', hw', hcw'⟩
      exact ⟨w', List.mem_cons_of_mem w hw', hcw'⟩

theorem windowChunks_dropLast (dec : List Nat → String) (tokens : List Nat) :
    ∀ idx ws, (windowChunks dec tokens idx ws).dropLast =
      windowChunks dec tokens idx ws.dropLast := by
  intro idx ws
  induction ws generalizing idx with
  | nil => rfl
  | cons w ws ih =>
    cases ws with
    | nil => rfl
    | cons w' ws' =>
      rw [windowChunks, windowChunks]
      rw [List.dropLast_cons₂, List.dropLast_cons₂, windowChunks]
      rw [← windowChunks, ← ih]

theorem window_token_count {tokens : List Nat} {s e : Nat}
    (he : e ≤ tokens.length) (hse : s ≤ e) :
    ((tokens.drop s).take (e - s)).length = e - s := by
  rw [List.length_take, List.length_drop]
  omega

/-- The three code paths of `chunk_text`, with `chunk_windows` tracking
each one. -/
theorem chunk_text_cases (enc : Encoding) (cs ov : Nat) (text : String) :
    (pyStripIsEmpty text = true ∧
      chunk_text enc cs ov text = some [] ∧
      chunk_windows enc cs ov text = some []) ∨
    (pyStripIsEmpty text = false ∧ (enc.encode text).length ≤ cs ∧
      chunk_text enc cs ov text = some [⟨text, (enc.encode text).length, 0⟩] ∧
      chunk_windows enc cs ov text = some [(0, (enc.encode text).length)]) ∨
    (pyStripIsEmpty text = false ∧ cs < (enc.encode text).length ∧
      chunk_text enc cs ov text =
        (chunkWindowsLoop (enc.encode text).length cs ov ((enc.encode text).length + 1) 0).map
          (windowChunks enc.decode (enc.encode text) 0) ∧
      chunk_windows enc cs ov text =
        chunkWindowsLoop (enc.encode text).length cs ov ((enc.encode text).length + 1) 0) := by
  by_cases hb : pyStripIsEmpty text
  · exact Or.inl ⟨hb, by simp [chunk_text, hb], by simp [chunk_windows, hb]⟩
  · by_cases hle : (enc.encode text).length ≤ cs
    · refine Or.inr (Or.inl ⟨by simpa using hb, hle, ?_, ?_⟩)
      · simp [chunk_text, hb, hle]
      · simp [chunk_windows, hb, hle]
    · refine Or.inr (Or.inr ⟨by simpa using hb, by omega, ?_, ?_⟩)
      · simp [chunk_text, hb, hle, chunkLoop_eq_windows]
      · simp [chunk_windows, hb, hle]

/-! ## Claim C7 -/

/-- **C7**: for every text and every configuration with
`chunk_overlap < chunk_size`, `chunk_text` terminates (the fuelled loop
returns a value), each window start strictly advances, the loop ends
when a window's end reaches the token sequence length, and the final,
possibly short, chunk is still emitted (a non-blank text always yields
a non-empty chunk list). -/
theorem chunk_text_terminates (enc : Encoding) (cs ov : Nat) (text : String)
    (hov : ov < cs) :
    (chunk_text enc cs ov text).isSome = true ∧
    (chunk_windows enc cs ov text).isSome = true ∧
    (∀ l, chunk_text enc cs ov text = some l → pyStripIsEmpty text = false → l ≠ []) ∧
    (∀ ws, chunk_windows enc cs ov text = some ws →
      List.Chain' (fun a b => a.1 < b.1) ws ∧
      (ws ≠ [] → ∃ p, ws.getLast? = some p ∧ p.2 = count_tokens enc text)) := by
  rcases chunk_text_cases enc cs ov text with ⟨hb, hct, hcw⟩ | ⟨hb, hle, hct, hcw⟩ |
    ⟨hb, hlt, hct, hcw⟩
  · rw [hct, hcw]
    refine ⟨rfl, rfl, ?_, ?_⟩
    · intro l _ hbf
      rw [hb] at hbf
      cases hbf
    · intro ws hws
      injection hws with h
      subst h
      exact ⟨List.chain'_nil, fun h => absurd rfl h⟩
  · rw [hct, hcw]
    refine ⟨rfl, rfl, ?_, ?_⟩
    · intro l hl _
      injection hl with h
      subst h
      simp
    · intro ws hws
      injection hws with h
      subst h
      exact ⟨by simp, fun _ => ⟨(0, (enc.encode text).length), rfl, rfl⟩⟩
  · have hlen : 0 < (enc.encode text).length := by omega
    have htot := @chunkWindowsLoop_total (enc.encode text).length cs ov hov
      ((enc.encode text).length + 1) 0 hlen (by omega)
    rcases Option.isSome_iff_exists.mp htot with ⟨ws0, hws0⟩
    have hwc := chunkWindowsLoop_sound hlen hws0
    refine ⟨?_, ?_, ?_, ?_⟩
    · rw [hct, hws0]
      rfl
    · rw [hcw]
      exact htot
    · intro l hl _
      rw [hct, hws0] at hl
      simp at hl
      intro hnil
      have hlen2 : l.length = ws0.length := by
        rw [← hl, windowChunks_length]
      rw [hnil] at hlen2
      exact hwc.ne_nil (List.eq_nil_of_length_eq_zero hlen2.symm)
    · intro ws hws
      rw [hcw, hws0] at hws
      injection hws with h
      subst h
      exact ⟨hwc.advance_chain hov, fun _ => hwc.getLast_end⟩

/-- Witness for C7 at a concrete input. -/
theorem chunk_text_terminates_witness :
    (chunk_text charEncoding 500 50 ("hello world")).isSome = true :=
  (chunk_text_terminates charEncoding 500 50 ("hello world") (by decide)).1

/-! ## Claim C8 -/

/-- **C8**: for every text with more tokens than `chunk_size` (non-blank
or not), the chunks of `chunk_text` are exactly the decoded token
windows, `chunk_index` values are `0..n-1` gap-free, and each window's
start (except the first) is exactly `chunk_overlap` tokens before the
previous window's end. -/
theorem chunk_text_overlap_alignment (enc : Encoding) (cs ov : Nat) (text : String)
    (l : List Chunk) (ws : List (Nat × Nat))
    (hcs : cs < count_tokens enc text)
    (hl : chunk_text enc cs ov text = some l)
    (hw : chunk_windows enc cs ov text = some ws) :
    l = windowChunks enc.decode (enc.encode text) 0 ws ∧
    l.map (fun c => c.chunk_index) = List.range l.length ∧
    List.Chain' (fun a b => b.1 = a.2 - ov) ws := by
  have hcs' : cs < (enc.encode text).length := hcs
  rcases chunk_text_cases enc cs ov text with ⟨hb, hct, hcw⟩ | ⟨hb, hle, hct, hcw⟩ |
    ⟨hb, hlt, hct, hcw⟩
  · rw [hct] at hl
    rw [hcw] at hw
    injection hl with h1
    injection hw with h2
    subst h1
    subst h2
    exact ⟨rfl, rfl, List.chain'_nil⟩
  · omega
  · rw [hct] at hl
    rw [hcw] at hw
    rw [hw] at hl
    simp at hl
    have hlen : 0 < (enc.encode text).length := by omega
    have hwc := chunkWindowsLoop_sound hlen hw
    refine ⟨hl.symm, ?_, hwc.overlap_chain⟩
    rw [← hl, windowChunks_map_index, windowChunks_length]
    simp

/-- Witness for C8 at a concrete input. -/
theorem chunk_text_overlap_alignment_witness :
    chunksAbc = windowChunks charEncoding.decode (charEncoding.encode ("abcdefgh")) 0 windowsAbc ∧
    chunksAbc.map (fun c => c.chunk_index) = List.range chunksAbc.length ∧
    List.Chain' (fun a b => b.1 = a.2 - 1) windowsAbc :=
  chunk_text_overlap_alignment charEncoding 3 1 ("abcdefgh") chunksAbc windowsAbc
    (by decide) (by decide) (by decide)

/-! ## Claim C9 -/

/-- **C9 counterexample**: a whitespace-only text is shorter than
`chunk_size` tokens, yet `chunk_text` returns zero chunks, not one. -/
theorem chunk_text_short_blank_counterexample :
    chunk_text charEncoding chunk_size_tokens chunk_overlap_tokens (" ") = some [] ∧
    count_tokens charEncoding (" ") < chunk_size_tokens := by
  constructor
  · decide
  · decide

/-- **C9 (amended)**: for all texts that are not whitespace-only and are
shorter than `chunk_size` tokens, `chunk_text` returns exactly one chunk
whose `token_count` equals `count_tokens` of the text, whose text equals
the input text, and whose `chunk_index` is 0. -/
theorem chunk_text_short_single_chunk (enc : Encoding) (cs ov : Nat) (text : String)
    (hb : pyStripIsEmpty text = false) (h : count_tokens enc text < cs) :
    chunk_text enc cs ov text = some [⟨text, count_tokens enc text, 0⟩] := by
  have h' : (enc.encode text).length ≤ cs := Nat.le_of_lt h
  simp only [chunk_text, hb]
  simp [h']
  rfl

/-- Witness for the amended C9 at a concrete input. -/
theorem chunk_text_short_single_chunk_witness :
    chunk_text charEncoding 500 50 ("hi") = some [⟨("hi"), count_tokens charEncoding ("hi"), 0⟩] :=
  chunk_text_short_single_chunk charEncoding 500 50 ("hi") (by decide) (by decide)

/-! ## Claim C10 -/

/-- **C10**: every chunk returned by `chunk_text` has
`token_count ≤ chunk_size`, and every chunk except the last has
`token_count` exactly `chunk_size`. -/
theorem chunk_text_token_count_bounds (enc : Encoding) (cs ov : Nat) (text : String)
    (l : List Chunk) (hl : chunk_text enc cs ov text = some l) :
    (∀ c ∈ l, c.token_count ≤ cs) ∧ (∀ c ∈ l.dropLast, c.token_count = cs) := by
  rcases chunk_text_cases enc cs ov text with ⟨hb, hct, hcw⟩ | ⟨hb, hle, hct, hcw⟩ |
    ⟨hb, hlt, hct, hcw⟩
  · rw [hct] at hl
    injection hl with h
    subst h
    simp
  · rw [hct] at hl
    injection hl with h
    subst h
    constructor
    · intro c hc
      simp at hc
      subst hc
      exact hle
    · intro c hc
      simp at hc
  · rw [hct] at hl
    rcases Option.map_eq_some'.mp hl with ⟨ws, hws, hlw⟩
    have hlen : 0 < (enc.encode text).length := by omega
    have hwc := chunkWindowsLoop_sound hlen hws
    subst hlw
    constructor
    · intro c hc
      rcases windowChunks_mem_token_count enc.decode (enc.encode text) 0 ws c hc with
        ⟨w, hw, hcw'⟩
      rcases hwc.mem_spec w hw with ⟨hw2, hw1⟩
      rw [hcw', window_token_count (by omega) (by omega)]
      omega
    · intro c hc
      rw [windowChunks_dropLast] at hc
      rcases windowChunks_mem_token_count enc.decode (enc.encode text) 0 ws.dropLast c hc with
        ⟨w, hw, hcw'⟩
      rcases hwc.dropLast_spec w hw with ⟨hw2, hwlt⟩
      rw [hcw', window_token_count (by omega) (by omega)]
      omega

/-- Witness for C10 at a concrete input. -/
theorem chunk_text_token_count_bounds_witness :
    (⟨("cdef"), 4, 1⟩ : Chunk).token_count ≤ 4 ∧
    (⟨("abcd"), 4, 0⟩ : Chunk).token_count = 4 :=
  ⟨(chunk_text_token_count_bounds charEncoding 4 2 ("abcdef") chunksDef (by decide)).1
      ⟨("cdef"), 4, 1⟩ (by decide),
   (chunk_text_token_count_bounds charEncoding 4 2 ("abcdef") chunksDef (by decide)).2
      ⟨("abcd"), 4, 0⟩ (by decide)⟩

/-! ## Coordinator lemmas: fingerprint uniqueness -/

theorem find?_sha_filter {docs : List DocRow} {v : String} {d : DocRow}
    (hp : docs.Pairwise (fun a b => a.sha256 ≠ b.sha256))
    (hf : docs.find? (fun r => r.sha256 = v) = some d) :
    ∀ x ∈ docs.filter (fun r => r.id ≠ d.id), x.sha256 ≠ v := by
  induction docs with
  | nil => cases hf
  | cons y t ih =>
    rw [List.pairwise_cons] at hp
    by_cases hy : y.sha256 = v
    · rw [List.find?_cons_of_pos _ (by simpa using hy)] at hf
      injection hf with hf
      subst hf
      intro x hx
      rw [List.filter_cons] at hx
      simp only [decide_eq_true_eq] at hx
      rw [if_neg (by simp)] at hx
      have hxt := List.mem_of_mem_filter hx
      have := hp.1 x hxt
      rw [hy] at this
      exact fun hxv => this (hxv.symm ▸ rfl)
    · rw [List.find?_cons_of_neg _ (by simpa using hy)] at hf
      intro x hx
      rw [List.filter_cons] at hx
      by_cases hid : y.id ≠ d.id
      · rw [if_pos (by simpa using hid)] at hx
        rcases List.mem_cons.mp hx with hx | hx
        · subst hx; exact hy
        · exact ih hp.2 hf x hx
      · rw [if_neg (by simpa using hid)] at hx
        exact ih hp.2 hf x hx

theorem uploadIngest_uniqueSha (sha : List Nat → String) (enc : Encoding)
    (jp : String → Option PyJson) (cs ov : Nat) (st : Sys) (content : List Nat)
    (ct fn : String) (md : Option String) (existing : Option DocRow)
    (h : UniqueSha st)
    (hex : ∀ d, existing = some d →
      st.docs.find? (fun r => r.sha256 = sha content) = some d)
    (hnone : existing = none →
      st.docs.find? (fun r => r.sha256 = sha content) = none) :
    UniqueSha (uploadIngest sha enc jp cs ov st content ct fn md existing).1 := by
  unfold uploadIngest
  cases hp : process_document sha enc jp cs ov content ct fn with
  | error e => exact h
  | ok res =>
    cases existing with
    | none =>
      have hn := hnone rfl
      simp only [UniqueSha]
      rw [List.pairwise_append]
      refine ⟨h, List.pairwise_singleton _ _, ?_⟩
      intro x hx y hy
      simp only [List.mem_singleton] at hy
      subst hy
      exact fun hxy => (List.find?_eq_none.mp hn x hx) (by simpa using hxy)
    | some d =>
      have hf := hex d rfl
      simp only [UniqueSha]
      rw [List.pairwise_append]
      refine ⟨h.sublist (List.filter_sublist _), List.pairwise_singleton _ _, ?_⟩
      intro x hx y hy
      simp only [List.mem_singleton] at hy
      subst hy
      exact find?_sha_filter h hf x hx

theorem upload_uniqueSha (sha : List Nat → String) (enc : Encoding)
    (jp : String → Option PyJson) (cs ov : Nat) (st : Sys) (content : List Nat)
    (ct : Option String) (fn : String) (md : Option String) (force : Bool)
    (h : UniqueSha st) :
    UniqueSha (upload sha enc jp cs ov st content ct fn md force).1 := by
  simp only [upload]
  cases hfind : st.docs.find? (fun r => r.sha256 = sha content) with
  | none =>
    exact uploadIngest_uniqueSha sha enc jp cs ov st content _ fn md none h
      (fun d hd => by cases hd) (fun _ => hfind)
  | some d =>
    cases force with
    | false => exact h
    | true =>
      exact uploadIngest_uniqueSha sha enc jp cs ov st content _ fn md (some d) h
        (fun d' hd' => by cases hd'; exact hfind) (fun hd => by cases hd)

theorem runUploads_uniqueSha (sha : List Nat → String) (enc : Encoding)
    (jp : String → Option PyJson) (cs ov : Nat) :
    ∀ (reqs : List UploadReq) (st : Sys), UniqueSha st →
      UniqueSha (runUploads sha enc jp cs ov st reqs) := by
  intro reqs
  induction reqs with
  | nil => intro st h; exact h
  | cons r rs ih =>
    intro st h
    exact ih _ (upload_uniqueSha sha enc jp cs ov st r.content r.content_type
      r.filename r.metadata_json r.force_reindex h)

theorem upload_reindex_trace (sha : List Nat → String) (enc : Encoding)
    (jp : String → Option PyJson) (cs ov : Nat) (st : Sys) (content : List Nat)
    (ct : Option String) (fn : String) (md : Option String) (d : DocRow)
    (st' : Sys) (ev : List Event) (resp : UploadResp)
    (hf : st.docs.find? (fun r => r.sha256 = sha content) = some d)
    (hup : upload sha enc jp cs ov st content ct fn md true = (st', ev, Except.ok resp)) :
    ev = [Event.deletePointsByDoc d.id, Event.deleteDocRow d.id,
          Event.createDocRow st.nextId, Event.addPoints st.nextId resp.chunk_count] := by
  simp only [upload, hf, if_pos] at hup
  unfold uploadIngest at hup
  cases hp : process_document sha enc jp cs ov content (ct.getD ("text/plain")) fn with
  | error e =>
    rw [hp] at hup
    simp at hup
  | ok res =>
    rw [hp] at hup
    simp only [Prod.mk.injEq] at hup
    rcases hup with ⟨_, hev, hresp⟩
    injection hresp with hresp
    subst hev
    subst hresp
    simp

/-! ## Claim C2 -/

/-- **C2**: starting from a state whose live Documents have pairwise
distinct fingerprints, any sequence of completed upload operations
(with or without `force_reindex`) preserves that invariant — at most one
live Document row per sha256; moreover, in the reindex case the event
trace of a completed upload deletes the prior Document's Vector Points
and its Metadata Store row strictly before it creates the new Document
row and its points. -/
theorem upload_sha_unique_and_reindex_order (sha : List Nat → String)
    (enc : Encoding) (jp : String → Option PyJson) (cs ov : Nat) (st : Sys)
    (reqs : List UploadReq) (h : UniqueSha st) :
    UniqueSha (runUploads sha enc jp cs ov st reqs) ∧
    (∀ (content : List Nat) (ct : Option String) (fn : String) (md : Option String)
      (d : DocRow) (st' : Sys) (ev : List Event) (resp : UploadResp),
      st.docs.find? (fun r => r.sha256 = sha content) = some d →
      upload sha enc jp cs ov st content ct fn md true = (st', ev, Except.ok resp) →
      ev = [Event.deletePointsByDoc d.id, Event.deleteDocRow d.id,
            Event.createDocRow st.nextId, Event.addPoints st.nextId resp.chunk_count]) :=
  ⟨runUploads_uniqueSha sha enc jp cs ov reqs st h,
   fun content ct fn md d st' ev resp hf hup =>
     upload_reindex_trace sha enc jp cs ov st content ct fn md d st' ev resp hf hup⟩

/-- Witness for C2: a fresh state stays duplicate-free across a
concrete upload sequence that ingests, re-uploads and force-reindexes
the same bytes. -/
theorem upload_sha_unique_and_reindex_order_witness :
    UniqueSha (runUploads shaModel charEncoding noJson 500 50 ⟨[], [], 0⟩
      [⟨[104, 105], none, ("a.txt"), none, false⟩,
       ⟨[104, 105], none, ("a.txt"), none, false⟩,
       ⟨[104, 105], none, ("a.txt"), none, true⟩]) :=
  (upload_sha_unique_and_reindex_order shaModel charEncoding noJson 500 50
    ⟨[], [], 0⟩
    [⟨[104, 105], none, ("a.txt"), none, false⟩,
     ⟨[104, 105], none, ("a.txt"), none, false⟩,
     ⟨[104, 105], none, ("a.txt"), none, true⟩] (by decide)).1

/-! ## Coordinator lemmas: point-delete recount -/

theorem recountRow_id (P : List Point) (a : Nat) (d : DocRow) :
    (recountRow P a d).id = d.id := rfl

theorem find?_id_map (f : DocRow → DocRow) (hf : ∀ d, (f d).id = d.id)
    (docs : List DocRow) (a : Nat) :
    (docs.map f).find? (fun r => r.id = a) =
      (docs.find? (fun r => r.id = a)).map f := by
  rw [List.find?_map]
  have hpred : ((fun r => decide (r.id = a)) ∘ f) = (fun r => decide (r.id = a)) := by
    funext r
    simp [Function.comp, hf r]
  rw [hpred]

theorem updateDocsLoop_find?_not_mem (P : List Point) :
    ∀ (aff : List Nat) (x : Nat), x ∉ aff → ∀ (docs : List DocRow),
      (updateDocsLoop P aff docs).find? (fun r => r.id = x) =
        docs.find? (fun r => r.id = x) := by
  intro aff
  induction aff with
  | nil => intro x _ docs; rfl
  | cons a rest ih =>
    intro x hx docs
    have hxa : x ≠ a := fun h => hx (h ▸ List.mem_cons_self a rest)
    have hxr : x ∉ rest := fun h => hx (List.mem_cons_of_mem a h)
    cases hfa : docs.find? (fun d => d.id = a) with
    | none =>
      simp only [updateDocsLoop, hfa]
      exact ih x hxr docs
    | some d0 =>
      simp only [updateDocsLoop, hfa]
      rw [ih x hxr]
      rw [find?_id_map _ (fun d => by by_cases h : d.id = a <;> simp [h, recountRow_id])]
      cases hfx : docs.find? (fun r => r.id = x) with
      | none => rfl
      | some r =>
        have hr : r.id = x := by simpa using List.find?_some hfx
        simp only [Option.map_some']
        rw [if_neg (by rw [hr]; exact hxa)]

theorem updateDocsLoop_find?_mem (P : List Point) :
    ∀ (aff : List Nat), aff.Nodup → ∀ (a : Nat), a ∈ aff → ∀ (docs : List DocRow),
      (updateDocsLoop P aff docs).find? (fun r => r.id = a) =
        (docs.find? (fun r => r.id = a)).map (recountRow P a) := by
  intro aff
  induction aff with
  | nil => intro _ a ha; cases ha
  | cons b rest ih =>
    intro hnd a ha docs
    rw [List.nodup_cons] at hnd
    by_cases hab : a = b
    · subst hab
      cases hfa : docs.find? (fun d => d.id = a) with
      | none =>
        simp only [updateDocsLoop, hfa]
        rw [updateDocsLoop_find?_not_mem P rest a hnd.1, hfa]
        rfl
      | some d0 =>
        simp only [updateDocsLoop, hfa]
        rw [updateDocsLoop_find?_not_mem P rest a hnd.1]
        rw [find?_id_map _ (fun d => by by_cases h : d.id = a <;> simp [h, recountRow_id])]
        rw [hfa]
        have hd0 : d0.id = a := by simpa using List.find?_some hfa
        simp only [Option.map_some']
        rw [if_pos hd0]
    · have har : a ∈ rest := by
        rcases List.mem_cons.mp ha with h | h
        · exact absurd h hab
        · exact h
      cases hfb : docs.find? (fun d => d.id = b) with
      | none =>
        simp only [updateDocsLoop, hfb]
        exact ih hnd.2 a har docs
      | some d0 =>
        simp only [updateDocsLoop, hfb]
        rw [ih hnd.2 a har]
        rw [find?_id_map _ (fun d => by by_cases h : d.id = b <;> simp [h, recountRow_id])]
        cases hfx : docs.find? (fun r => r.id = a) with
        | none => rfl
        | some r =>
          have hr : r.id = a := by simpa using List.find?_some hfx
          simp only [Option.map_some']
          rw [if_neg (by rw [hr]; exact hab)]

theorem dedupKeepFirst_nodup : ∀ l : List Nat, (dedupKeepFirst l).Nodup := by
  intro l
  induction l with
  | nil => exact List.nodup_nil
  | cons a t ih =>
    rw [dedupKeepFirst, List.nodup_cons]
    constructor
    · intro hmem
      have := List.of_mem_filter hmem
      simp at this
    · exact ih.filter _

theorem affectedDocIds_nodup (st : Sys) (pids : List Nat) :
    (affectedDocIds st pids).Nodup := by
  unfold affectedDocIds
  exact dedupKeepFirst_nodup _

/-! ## Claim C3 -/

/-- **C3 counterexample**: after deleting point 0 of a document that
still has 10001 points, the recount scroll reads a single page of limit
10000, so the stored `chunk_count` (10000) does not equal the number of
Vector Points still present for that doc id (10001). -/
theorem delete_points_recount_counterexample :
    ((delete_qdrant_points bigState [0] false false).1.points.filter
      (fun p => p.doc_id = 0)).length = 10001 ∧
    (delete_qdrant_points bigState [0] false false).1.docs.map (fun d => d.chunk_count) =
      [10000] := by
  have hred : delete_qdrant_points bigState [0] false false =
      (⟨updateDocsLoop (bigPoints.filter (fun p => p.pid ∉ ([0] : List Nat)))
          (dedupKeepFirst ((bigPoints.filter (fun p => p.pid ∈ ([0] : List Nat))).map
            (fun p => p.doc_id)))
          [bigDoc],
        bigPoints.filter (fun p => p.pid ∉ ([0] : List Nat)), 20000⟩,
       Except.ok ⟨"Points deleted successfully", 1⟩) := rfl
  have htail_notzero : bigTail.filter (fun p => p.pid ∉ ([0] : List Nat)) = bigTail := by
    rw [List.filter_eq_self]
    intro p hp
    rcases List.mem_map.mp hp with ⟨i, _, rfl⟩
    simp
  have htail_zero : bigTail.filter (fun p => p.pid ∈ ([0] : List Nat)) = [] := by
    rw [List.filter_eq_nil_iff]
    intro p hp
    rcases List.mem_map.mp hp with ⟨i, _, rfl⟩
    simp
  have htail_doc : bigTail.filter (fun p => p.doc_id = 0) = bigTail := by
    rw [List.filter_eq_self]
    intro p hp
    rcases List.mem_map.mp hp with ⟨i, _, rfl⟩
    simp
  have hpts : bigPoints.filter (fun p => p.pid ∉ ([0] : List Nat)) = bigTail := by
    rw [bigPoints, List.filter_cons]
    simp only [htail_notzero]
    rw [if_neg (by simp)]
  have hret : bigPoints.filter (fun p => p.pid ∈ ([0] : List Nat)) =
      [⟨0, 0, 0, 1, ("")⟩] := by
    rw [bigPoints, List.filter_cons]
    simp only [htail_zero]
    rw [if_pos (by simp)]
  have hlen : bigTail.length = 10001 := by
    rw [bigTail, List.length_map, List.length_range]
  rw [hred]
  constructor
  · simp only [hpts, htail_doc, hlen]
  · rw [hpts, hret]
    simp only [List.map_cons, List.map_nil]
    have hded : dedupKeepFirst [(⟨0, 0, 0, 1, ("")⟩ : Point).doc_id] = [0] := rfl
    rw [hded]
    simp only [updateDocsLoop]
    have hfind : ([bigDoc].find? (fun d => d.id = 0)) = some bigDoc := rfl
    rw [hfind]
    simp only [List.map_cons, List.map_nil]
    rw [if_pos (by rfl)]
    simp only [updateDocsLoop, recountRow, htail_doc]
    simp only [List.map_cons, List.map_nil, List.length_take, hlen]
    rfl

/-- **C3 (amended)**: after a successful point-level delete, for every
affected Document id that exists in the Metadata Store *and has at most
10000 points remaining* (one recount scroll page), its `chunk_count`
equals the number of Vector Points still present whose payload `doc_id`
matches it and its `total_tokens` equals the sum of those points'
`token_count`s, recomputed from the post-delete Vector Store state. -/
theorem delete_points_recount_matches_store (st : Sys) (point_ids : List Nat)
    (a : Nat) (d' : DocRow)
    (hne : point_ids.isEmpty = false)
    (ha : a ∈ affectedDocIds st point_ids)
    (hlim : ((st.points.filter (fun p => p.pid ∉ point_ids)).filter
      (fun p => p.doc_id = a)).length ≤ 10000)
    (hfind : (delete_qdrant_points st point_ids false false).1.docs.find?
      (fun r => r.id = a) = some d') :
    d'.chunk_count = ((delete_qdrant_points st point_ids false false).1.points.filter
      (fun p => p.doc_id = a)).length ∧
    d'.total_tokens = (((delete_qdrant_points st point_ids false false).1.points.filter
      (fun p => p.doc_id = a)).map (fun p => p.token_count)).sum := by
  have hred : delete_qdrant_points st point_ids false false =
      (⟨updateDocsLoop (st.points.filter (fun p => p.pid ∉ point_ids))
          (affectedDocIds st point_ids) st.docs,
        st.points.filter (fun p => p.pid ∉ point_ids), st.nextId⟩,
       Except.ok ⟨"Points deleted successfully", point_ids.length⟩) := by
    unfold delete_qdrant_points affectedDocIds
    rw [if_neg (by simp [hne])]
    rfl
  rw [hred] at hfind ⊢
  simp only at hfind ⊢
  rw [updateDocsLoop_find?_mem _ _ (affectedDocIds_nodup st point_ids) a ha] at hfind
  cases hfx : st.docs.find? (fun r => r.id = a) with
  | none => rw [hfx] at hfind; cases hfind
  | some d0 =>
    rw [hfx] at hfind
    simp only [Option.map_some'] at hfind
    injection hfind with hd'
    subst hd'
    have htake : (((st.points.filter (fun p => p.pid ∉ point_ids)).filter
        (fun p => p.doc_id = a)).take 10000) =
        (st.points.filter (fun p => p.pid ∉ point_ids)).filter
          (fun p => p.doc_id = a) :=
      List.take_of_length_le hlim
    constructor
    · simp only [recountRow, htake]
    · simp only [recountRow, htake]

/-- Witness for the amended C3 at a concrete state: a document with two
points, one of which is deleted. -/
theorem delete_points_recount_matches_store_witness :
    (⟨0, ("d"), ("t"), ("s0"), none, 1, 1, ("ingested")⟩ : DocRow).chunk_count =
      ((delete_qdrant_points
          ⟨[⟨0, ("d"), ("t"), ("s0"), none, 2, 2, ("ingested")⟩],
           [⟨0, 0, 0, 1, ("x")⟩, ⟨1, 0, 1, 1, ("y")⟩], 5⟩
          [0] false false).1.points.filter (fun p => p.doc_id = 0)).length ∧
    (⟨0, ("d"), ("t"), ("s0"), none, 1, 1, ("ingested")⟩ : DocRow).total_tokens =
      (((delete_qdrant_points
          ⟨[⟨0, ("d"), ("t"), ("s0"), none, 2, 2, ("ingested")⟩],
           [⟨0, 0, 0, 1, ("x")⟩, ⟨1, 0, 1, 1, ("y")⟩], 5⟩
          [0] false false).1.points.filter (fun p => p.doc_id = 0)).map
        (fun p => p.token_count)).sum :=
  delete_points_recount_matches_store
    ⟨[⟨0, ("d"), ("t"), ("s0"), none, 2, 2, ("ingested")⟩],
     [⟨0, 0, 0, 1, ("x")⟩, ⟨1, 0, 1, 1, ("y")⟩], 5⟩
    [0] 0 ⟨0, ("d"), ("t"), ("s0"), none, 1, 1, ("ingested")⟩
    (by decide) (by decide) (by decide) (by decide)

/-! ## Claim C1 -/

/-- **C1 counterexample**: with declared type `text/plain` and a byte
that is not valid UTF-8, `extract_text` raises a `UnicodeDecodeError`
instead of returning text. -/
theorem extract_text_plain_invalid_utf8_raises :
    extract_text noJson [0xFF] ("text/plain") ("f.txt") =
      Except.error ExtractError.unicodeDecodeError := by
  rfl

/-- **C1 (amended)**: for every input byte string and every declared
content type other than `text/plain`, `text/markdown` and
`application/json`, `extract_text` returns the best-effort UTF-8 decode
of the bytes (ignoring invalid sequences) and never raises; for
`text/plain`/`text/markdown` a strict decode is used, which raises on
invalid UTF-8, and for `application/json` the fallback covers only JSON
parse errors, not invalid UTF-8. -/
theorem extract_text_other_types_never_raise (jp : String → Option PyJson)
    (content : List Nat) (ct fn : String)
    (h1 : ct ≠ "text/plain") (h2 : ct ≠ "text/markdown")
    (h3 : ct ≠ "application/json") :
    extract_text jp content ct fn = Except.ok (decodeUtf8Ignore content) := by
  unfold extract_text
  rw [if_neg (fun h => h.elim h1 h2), if_neg h3]

/-- Witness for the amended C1: an invalid byte under another declared
type still yields text. -/
theorem extract_text_other_types_never_raise_witness :
    extract_text noJson [0xFF, 104] ("application/pdf") ("f.bin") =
      Except.ok (decodeUtf8Ignore [0xFF, 104]) :=
  extract_text_other_types_never_raise noJson [0xFF, 104] ("application/pdf") ("f.bin")
    (by decide) (by decide) (by decide)

/-! ## Claim C4 -/

/-- **C4**: uploading bytes whose fingerprint already has a live
Document, with `force_reindex` false, returns the existing Document's
id, `chunk_count` and `total_tokens`, changes no state, and writes
nothing to either store (empty event trace). -/
theorem upload_duplicate_idempotent (sha : List Nat → String) (enc : Encoding)
    (jp : String → Option PyJson) (cs ov : Nat) (st : Sys) (content : List Nat)
    (ct : Option String) (fn : String) (md : Option String) (d : DocRow)
    (hf : st.docs.find? (fun r => r.sha256 = sha content) = some d) :
    upload sha enc jp cs ov st content ct fn md false =
      (st, [], Except.ok ⟨"Document already exists", d.id, d.chunk_count, d.total_tokens⟩) := by
  simp only [upload, hf]
  rfl

/-- Witness for C4 at a concrete state. -/
theorem upload_duplicate_idempotent_witness :
    upload shaModel charEncoding noJson 500 50
      ⟨[⟨7, ("a.txt"), ("text/plain"), shaModel [104], none, 3, 9, ("ingested")⟩], [], 8⟩
      [104] none ("a.txt") none false =
      (⟨[⟨7, ("a.txt"), ("text/plain"), shaModel [104], none, 3, 9, ("ingested")⟩], [], 8⟩,
       [], Except.ok ⟨"Document already exists", 7, 3, 9⟩) :=
  upload_duplicate_idempotent shaModel charEncoding noJson 500 50
    ⟨[⟨7, ("a.txt"), ("text/plain"), shaModel [104], none, 3, 9, ("ingested")⟩], [], 8⟩
    [104] none ("a.txt") none ⟨7, ("a.txt"), ("text/plain"), shaModel [104], none, 3, 9, ("ingested")⟩
    (by decide)

/-! ## Claim C5 -/

/-- **C5**: when the Vector Store deletion fails during
delete-one-document of an existing id, the Metadata Store row is still
deleted (no row with that id remains), the points are untouched, and
the handler returns a success response carrying the explicit
`"Qdrant cleanup failed"` warning. -/
theorem delete_document_vector_failure_warning (st : Sys) (did : Nat) (d : DocRow)
    (hf : st.docs.find? (fun r => r.id = did) = some d) :
    delete_document st did true false =
      (⟨st.docs.filter (fun r => r.id ≠ did), st.points, st.nextId⟩,
       Except.ok ⟨"Document deleted from database, but some chunks may remain in Qdrant",
         did, some ("Qdrant cleanup failed")⟩) ∧
    (st.docs.filter (fun r => r.id ≠ did)).find? (fun r => r.id = did) = none := by
  constructor
  · simp only [delete_document, hf]
    rfl
  · rw [List.find?_eq_none]
    intro x hx
    have := List.of_mem_filter hx
    simpa using this

/-- Witness for C5 at a concrete state. -/
theorem delete_document_vector_failure_warning_witness :
    delete_document ⟨[⟨3, ("a"), ("text/plain"), ("s3"), none, 1, 1, ("ingested")⟩],
        [⟨10, 3, 0, 1, ("x")⟩], 11⟩ 3 true false =
      (⟨[], [⟨10, 3, 0, 1, ("x")⟩], 11⟩,
       Except.ok ⟨"Document deleted from database, but some chunks may remain in Qdrant",
         3, some ("Qdrant cleanup failed")⟩) := by
  have h := delete_document_vector_failure_warning
    ⟨[⟨3, ("a"), ("text/plain"), ("s3"), none, 1, 1, ("ingested")⟩], [⟨10, 3, 0, 1, ("x")⟩], 11⟩
    3 ⟨3, ("a"), ("text/plain"), ("s3"), none, 1, 1, ("ingested")⟩ (by decide)
  exact h.1

/-! ## Claim C6 -/

/-- **C6**: whenever chunking the extracted text yields zero chunks, the
ingestion pipeline fails with the no-content error (the
`ValueError("Document produced no chunks")` the spec names
`NoContentError`), and an upload taking the ingestion path (no dedup
short-circuit) leaves the state unchanged and writes nothing to either
store; it never succeeds with an empty chunk list. -/
theorem process_document_no_content (sha : List Nat → String) (enc : Encoding)
    (jp : String → Option PyJson) (cs ov : Nat) (content : List Nat)
    (ct fn : String) (txt : String)
    (hx : extract_text jp content ct fn = Except.ok txt)
    (hc : chunk_text enc cs ov txt = some []) :
    process_document sha enc jp cs ov content ct fn = Except.error ProcError.noContent ∧
    (∀ (st : Sys) (md : Option String) (force : Bool),
      st.docs.find? (fun r => r.sha256 = sha content) = none ∨ force = true →
      upload sha enc jp cs ov st content (some ct) fn md force =
        (st, [], Except.error ProcError.noContent)) := by
  have hproc : process_document sha enc jp cs ov content ct fn =
      Except.error ProcError.noContent := by
    simp [process_document, hx, hc]
  refine ⟨hproc, ?_⟩
  intro st md force h
  simp only [upload, Option.getD]
  cases hfind : st.docs.find? (fun r => r.sha256 = sha content) with
  | none =>
    simp only [uploadIngest, hproc]
  | some d =>
    have hforce : force = true := by
      rcases h with h | h
      · rw [hfind] at h
        cases h
      · exact h
    subst hforce
    simp only [uploadIngest, hproc]
    simp

/-- Witness for C6: the empty upload (blank document) fails with the
no-content error and leaves the empty state untouched. -/
theorem process_document_no_content_witness :
    process_document shaModel charEncoding noJson 500 50 [] ("text/plain") ("f.txt") =
      Except.error ProcError.noContent ∧
    upload shaModel charEncoding noJson 500 50 ⟨[], [], 0⟩ [] (some ("text/plain"))
        ("f.txt") none false = (⟨[], [], 0⟩, [], Except.error ProcError.noContent) := by
  have h := process_document_no_content shaModel charEncoding noJson 500 50 []
    ("text/plain") ("f.txt") ("") rfl (by decide)
  exact ⟨h.1, h.2 ⟨[], [], 0⟩ none false (Or.inl rfl)⟩

end Chunkenizer
